import Mathlib

/-!
Verification of the Supply-Chain Query Bot core (`backend.py` / `app.py`).

The Python source is shallowly embedded: strings are Lean `String`s
(manipulated through their `List Char` data), the SQLite engine and the
language model are abstract oracles passed as function arguments, and every
source function is translated into a total executable Lean definition.

Modelling conventions:
* Python `str.strip()` strips the ASCII whitespace characters
  space, tab, newline, vertical tab, form feed, carriage return
  (`isPySpace`); the repository only ever handles ASCII SQL text.
* Python regex matching with `re.IGNORECASE` over the ASCII patterns used in
  the source (`^\s*(insert|...)\b` and `\blimit\b`) is embedded by the
  case-insensitive char matcher `matchCI` together with the word-boundary
  test `afterOk`; `\w` is embedded as ASCII `[A-Za-z0-9_]` (`isWordChar`).
* `sqlite3` is abstracted as an oracle: for plan-only validation a function
  `String → Option String` (an error message, or `none` on acceptance), and
  for execution a function `String → DB → Except String (DB × List Row)`
  (commit-on-success: on an engine error the database is unchanged).
-/

/-- Python whitespace characters (ASCII), as stripped by `str.strip()` and
matched by regex `\s`. -/
def isPySpace (c : Char) : Bool :=
  decide (c.toNat = 32 ∨ c.toNat = 9 ∨ c.toNat = 10 ∨ c.toNat = 11 ∨
          c.toNat = 12 ∨ c.toNat = 13)

/-- The semicolon character test used by `rstrip(";")`. -/
def isSemi (c : Char) : Bool := decide (c.toNat = 59)

/-- Drop the longest suffix of `l` whose characters satisfy `p`
(the right-hand side of Python `strip`/`rstrip`). -/
def rdropWhile (p : Char → Bool) (l : List Char) : List Char :=
  (l.reverse.dropWhile p).reverse

/-- Python `s.strip()` on the character list of `s`. -/
def pyStripL (l : List Char) : List Char :=
  rdropWhile isPySpace (l.dropWhile isPySpace)

/-- Python `s.rstrip(";")` on the character list of `s`. -/
def rstripSemisL (l : List Char) : List Char := rdropWhile isSemi l

/-- Case-insensitive character match: pattern character `p` is a lowercase
ASCII letter, and `c` matches it exactly when `c` is `p` or its uppercase
form (regex `re.IGNORECASE` semantics for ASCII letters). -/
def matchCI (p c : Char) : Bool := c == p || decide (c.toNat + 32 = p.toNat)

/-- Match the pattern `pat` case-insensitively against the front of `l`,
returning the remainder of `l` on success. -/
def ciTake : List Char → List Char → Option (List Char)
  | [], l => some l
  | _ :: _, [] => none
  | p :: ps, c :: l => if matchCI p c then ciTake ps l else none

/-- Pattern `pat` matches the whole list `m` case-insensitively. -/
def matchesCI : List Char → List Char → Bool
  | [], [] => true
  | p :: ps, c :: cs => matchCI p c && matchesCI ps cs
  | _, _ => false

/-- ASCII word character, regex `\w`: `[A-Za-z0-9_]`. -/
def isWordChar (c : Char) : Bool :=
  decide ((65 ≤ c.toNat ∧ c.toNat ≤ 90) ∨ (97 ≤ c.toNat ∧ c.toNat ≤ 122) ∨
          (48 ≤ c.toNat ∧ c.toNat ≤ 57) ∨ c.toNat = 95)

/-- Word boundary after a matched keyword (regex `\b`): the remainder is
empty or starts with a non-word character. -/
def afterOk : List Char → Bool
  | [] => true
  | c :: _ => !isWordChar c

/-- Word boundary before a match position, given the preceding character
(`none` at the start of the text). -/
def boundaryOk : Option Char → Bool
  | none => true
  | some c => !isWordChar c

/-- The keyword `pat` matches at the front of `l` with a word boundary after
it (regex `pattern\b` anchored at the current position). -/
def kwMatch (pat l : List Char) : Bool :=
  match ciTake pat l with
  | some rem => afterOk rem
  | none => false

/-- The mutating leading keywords of `backend.py`'s `_MUTATION_RE`. -/
def mutationKeywords : List (List Char) :=
  [['i', 'n', 's', 'e', 'r', 't'], ['u', 'p', 'd', 'a', 't', 'e'],
   ['d', 'e', 'l', 'e', 't', 'e'], ['c', 'r', 'e', 'a', 't', 'e'],
   ['d', 'r', 'o', 'p'], ['a', 'l', 't', 'e', 'r'],
   ['r', 'e', 'p', 'l', 'a', 'c', 'e'],
   ['t', 'r', 'u', 'n', 'c', 'a', 't', 'e']]

/-- `backend.is_mutation`: the stripped statement matches
`^\s*(insert|update|delete|create|drop|alter|replace|truncate)\b`
case-insensitively. -/
def is_mutation (sql : String) : Bool :=
  mutationKeywords.any (fun kw => kwMatch kw (pyStripL sql.data))

/-- Scan for a case-insensitive whole-word occurrence of `pat`
(regex `re.search(r"\bpat\b", s, re.IGNORECASE)`), carrying the previous
character for the left word-boundary test. -/
def hasWordAux (pat : List Char) : Option Char → List Char → Bool
  | _, [] => false
  | prev, c :: rest =>
      (boundaryOk prev && kwMatch pat (c :: rest)) || hasWordAux pat (some c) rest

/-- The word pattern of `ensure_limit`'s bound check. -/
def limitPat : List Char := ['l', 'i', 'm', 'i', 't']

/-- `re.search(r"\blimit\b", s, re.IGNORECASE)` succeeds on `l`. -/
def hasWordLimit (l : List Char) : Bool := hasWordAux limitPat none l

/-- The word pattern of the `select` prefix tests. -/
def selectPat : List Char := ['s', 'e', 'l', 'e', 'c', 't']

/-- Case-insensitive "starts with pattern" (Python
`s.lower().startswith(pat)` for a lowercase ASCII `pat`). -/
def startsWithCI (pat l : List Char) : Bool := (ciTake pat l).isSome

/-- Python `s.lower().startswith("select")`. -/
def startsSelect (l : List Char) : Bool := startsWithCI selectPat l

/-- Decimal digit character for `d % 10`. -/
def digitChar : Nat → Char
  | 0 => '0' | 1 => '1' | 2 => '2' | 3 => '3' | 4 => '4'
  | 5 => '5' | 6 => '6' | 7 => '7' | 8 => '8' | _ => '9'

/-- Fuelled decimal printer (most significant digit first). -/
def natReprAux : Nat → Nat → List Char → List Char
  | 0, _, acc => acc
  | fuel + 1, n, acc =>
      if n < 10 then digitChar n :: acc
      else natReprAux fuel (n / 10) (digitChar (n % 10) :: acc)

/-- Decimal representation of a natural number, as interpolated by the
f-string in `ensure_limit`. -/
def natRepr (n : Nat) : List Char := natReprAux (n + 1) n []

/-- The literal text `" LIMIT "` inserted by `ensure_limit`. -/
def limitKeywordChars : List Char := [' ', 'L', 'I', 'M', 'I', 'T', ' ']

/-- `backend.ensure_limit`: append `LIMIT default_limit` to an unbounded
`SELECT`; leave everything else untouched. -/
def ensure_limit (sql : String) (default_limit : Nat := 1000) : String :=
  let s := rstripSemisL (pyStripL sql.data)
  if !startsSelect s then sql
  else if hasWordLimit s then sql
  else String.mk (s ++ limitKeywordChars ++ natRepr default_limit ++ [';'])

/-- Python `str(x)` on an optional string (`str(None) = "None"`), as used by
the f-strings in `generate_sql_from_nl`. -/
def optStr : Option String → String
  | none => "None"
  | some s => s

/-- The plan-only validator `validate_select_sql` of `backend.py`.
The SQLite engine is abstracted by `explain`, which maps the executed
command text (`EXPLAIN QUERY PLAN …`) to `some errorMessage` when the engine
raises `sqlite3.Error`, and `none` when planning succeeds. -/
def validate_select_sql (explain : String → Option String) (sql_text : String) :
    Bool × Option String :=
  let s := rstripSemisL (pyStripL sql_text.data)
  if !startsSelect s then (true, none)
  else
    match explain ("EXPLAIN QUERY PLAN " ++ String.mk s) with
    | none => (true, none)
    | some e => (false, some e)

/-- The bare dialect names recognised (lowercased) by `_clean`. -/
def dialectNames : List (List Char) :=
  [['s', 'q', 'l'], ['s', 'q', 'l', 'i', 't', 'e'],
   ['m', 'y', 's', 'q', 'l'],
   ['p', 'o', 's', 't', 'g', 'r', 'e', 's', 'q', 'l'],
   ['p', 'o', 's', 't', 'g', 'r', 'e', 's']]

/-- Split a character list at its first newline: `some (before, after)`,
or `none` when no newline occurs (Python `t.find("\n")`). -/
def breakAtNewline : List Char → Option (List Char × List Char)
  | [] => none
  | c :: rest =>
      if c == '\n' then some ([], rest)
      else (breakAtNewline rest).map (fun q => (c :: q.1, q.2))

/-- The model-output cleaner `_clean` of `generate_sql_from_nl`: strip
whitespace and backtick fences, and drop a leading line that is a bare
dialect name. -/
def _clean (sql_text : String) : String :=
  let t0 := pyStripL sql_text.data
  let t := pyStripL (rdropWhile (· == '`') (t0.dropWhile (· == '`')))
  let firstLine := match breakAtNewline t with
    | none => t
    | some q => q.1
  let t1 :=
    if dialectNames.any (fun d => matchesCI d (pyStripL firstLine)) then
      match breakAtNewline t with
      | none => ([] : List Char)
      | some q => q.2
    else t
  String.mk (pyStripL t1)

/-- The fixed success reasoning string of `generate_sql_from_nl`. -/
def successReasoning : String := "SQL generated via Gemini and validated against SQLite."

/-- The reasoning string returned when all attempts fail. -/
def exhaustedReasoning (lastError : Option String) : String :=
  "Model attempts exhausted; last validation error: " ++ optStr lastError

/-- The initial prompt of `generate_sql_from_nl`. -/
def basePrompt (schema nl : String) : String :=
  "SQLite schema summary:\n" ++ schema ++ "\n\nUser request: " ++ nl ++
  "\n\nReturn only the SQL query with no commentary."

/-- The part of the retry prompt before the interpolated error message. -/
def retryPre (schema nl : String) : String :=
  "SQLite schema summary:\n" ++ schema ++ "\n\nUser request: " ++ nl ++
  "\n\nThe previous SQL caused an SQLite error: "

/-- The part of the retry prompt after the interpolated error message. -/
def retrySuf : String :=
  ".\nRegenerate a valid SQL that matches the schema. Return only the SQL."

/-- The feedback prompt rebuilt after a rejected candidate. -/
def retryPrompt (schema nl : String) (err : Option String) : String :=
  retryPre schema nl ++ optStr err ++ retrySuf

/-- The retry loop of `generate_sql_from_nl`. `gm` is the language model
(prompt text to raw response text); `explain` is the engine oracle of
`validate_select_sql`. The loop carries the remaining attempt count, the
prompt for the next call, and the last error/candidate (for the
budget-exhausted return). Alongside the source's `(sql, reasoning)` result
it returns the list of prompts sent to the model, one per invocation. -/
def genLoop (gm : String → String) (explain : String → Option String)
    (schema nl : String) :
    Nat → String → Option String → String → (String × String) × List String
  | 0, _, lastErr, lastSql => ((lastSql, exhaustedReasoning lastErr), [])
  | k + 1, prompt, _, _ =>
      let sql := _clean (gm prompt)
      let v := validate_select_sql explain sql
      if v.1 then ((sql, successReasoning), [prompt])
      else
        let out := genLoop gm explain schema nl k (retryPrompt schema nl v.2) v.2 sql
        (out.1, prompt :: out.2)

/-- `backend.generate_sql_from_nl` (with `attempts = 3`), returning
`(sql, reasoning)`. -/
def generate_sql_from_nl (gm : String → String) (explain : String → Option String)
    (schema nl : String) : String × String :=
  (genLoop gm explain schema nl 3 (basePrompt schema nl) none "").1

/-- The prompts sent to the model by `generate_sql_from_nl`, in order; its
length is the number of model invocations. -/
def genPrompts (gm : String → String) (explain : String → Option String)
    (schema nl : String) : List String :=
  (genLoop gm explain schema nl 3 (basePrompt schema nl) none "").2

section Execution

variable {DB Row : Type}

/-- `backend.execute_query`. The engine oracle models
`cursor.execute` + `conn.commit`: on success it yields the committed
database and the fetched rows, on `sqlite3.Error` it yields the error text
(the interpolated `{e!r}`) and the database is unchanged. The result pairs
the source's `(status, rows)` with the resulting database state. -/
def execute_query (engine : String → DB → Except String (DB × List Row))
    (query : String) (db : DB) : (String × Option (List Row)) × DB :=
  match engine query db with
  | Except.ok q =>
      if startsSelect (pyStripL query.data) then (("ok", some q.2), q.1)
      else (("ok", none), q.1)
  | Except.error e => (("error: " ++ e, none), db)

/-- `backend.run_sql_safe`: execute mutations as given, and bounded
`SELECT`s via `ensure_limit`. -/
def run_sql_safe (engine : String → DB → Except String (DB × List Row))
    (sql : String) (default_limit : Nat := 1000) (db : DB) :
    (String × Option (List Row)) × DB :=
  if is_mutation sql then execute_query engine sql db
  else execute_query engine (ensure_limit sql default_limit) db

/-- A session-history record of `app.py`
(`{nl, sql, confirmed, status, rows}`). -/
structure LedgerEntry where
  nl : Option String
  sql : String
  confirmed : Bool
  status : String
  rows : Nat
deriving DecidableEq

/-- The session state of `app.py` relevant to the run buttons. -/
structure AppState (DB Row : Type) where
  db : DB
  history : List LedgerEntry
  last_rows : Option (List Row)
  pending_nl : Option String

/-- What the chat tab displays after a run-button press: one of the two
refusal messages, or the outcome of an executed statement. -/
inductive RunDisplay (Row : Type) where
  | confirmBelowWarning
  | checkBoxError
  | ran (status : String) (rows : Option (List Row))
deriving DecidableEq

/-- The `Run Query` button handler of `app.py`'s chat tab: refuse mutating
statements outright, otherwise run through `run_sql_safe` and append a
history entry with `confirmed: True`. -/
def runQueryButton (engine : String → DB → Except String (DB × List Row))
    (sql : String) (default_limit : Nat) (st : AppState DB Row) :
    AppState DB Row × RunDisplay Row :=
  if is_mutation sql then (st, RunDisplay.confirmBelowWarning)
  else
    let out := run_sql_safe engine sql default_limit st.db
    ({ db := out.2,
       history := st.history ++
         [{ nl := st.pending_nl, sql := sql, confirmed := true,
            status := out.1.1, rows := (out.1.2.getD []).length }],
       last_rows := out.1.2,
       pending_nl := st.pending_nl },
     RunDisplay.ran out.1.1 out.1.2)

/-- The `Run (Confirmed Mutations)` button handler of `app.py`'s chat tab:
refuse when the statement is mutating and the checkbox is unchecked,
otherwise run through `run_sql_safe` and append a history entry whose
confirmation flag is the source's `mut and confirmed or True`. -/
def runConfirmedButton (engine : String → DB → Except String (DB × List Row))
    (sql : String) (confirmed : Bool) (default_limit : Nat)
    (st : AppState DB Row) : AppState DB Row × RunDisplay Row :=
  if is_mutation sql && !confirmed then (st, RunDisplay.checkBoxError)
  else
    let out := run_sql_safe engine sql default_limit st.db
    ({ db := out.2,
       history := st.history ++
         [{ nl := st.pending_nl, sql := sql,
            confirmed := (is_mutation sql && confirmed) || true,
            status := out.1.1, rows := (out.1.2.getD []).length }],
       last_rows := out.1.2,
       pending_nl := st.pending_nl },
     RunDisplay.ran out.1.1 out.1.2)

end Execution

/-- The classifier property as worded by the spec (independent of the regex
embedding): the trimmed statement starts, case-insensitively, with one of
the mutating keywords, followed by a word boundary (end of text or a
non-word character). -/
def specMutating (s : String) : Prop :=
  ∃ kw ∈ mutationKeywords, ∃ m rem, pyStripL s.data = m ++ rem ∧
    matchesCI kw m = true ∧
    (rem = [] ∨ ∃ c t, rem = c :: t ∧ isWordChar c = false)

/-- Status strings of `execute_query` are classified by this test alone:
it recognises the `error: ` lead of failure statuses. -/
def errStatus (status : String) : Bool :=
  "error: ".data.isPrefixOf status.data

/-- An engine oracle whose plan check always fails with a fixed diagnostic
(used to exercise the validator and the retry loop). -/
def explainFail : String → Option String := fun _ => some "no such table: ghost"

/-- A language model stub that always answers `select 1`. -/
def gmSelect : String → String := fun _ => "select 1"

/-- A language model stub that always answers the bare dialect name
`sql`. -/
def gmSql : String → String := fun _ => "sql"

/-- A trivial execution engine over a unit database that always succeeds
with one row. -/
def okEngine : String → Unit → Except String (Unit × List Unit) :=
  fun _ _ => Except.ok ((), [()])

/-- A trivial execution engine over a unit database that always fails. -/
def errEngine : String → Unit → Except String (Unit × List Unit) :=
  fun _ _ => Except.error "boom"

/-- An empty app session over the unit database. -/
def unitState : AppState Unit Unit :=
  { db := (), history := [], last_rows := none, pending_nl := none }

/-- The prompt used at attempt `k` of the retry loop when every earlier
candidate was rejected: the base prompt first, then feedback prompts built
from the previous attempt's diagnostic. -/
def genAttemptPrompt (gm : String → String) (explain : String → Option String)
    (schema nl : String) : Nat → String
  | 0 => basePrompt schema nl
  | k + 1 => retryPrompt schema nl
      (validate_select_sql explain
        (_clean (gm (genAttemptPrompt gm explain schema nl k)))).2

/-- The cleaned candidate produced at attempt `k` when every earlier
candidate was rejected. -/
def genCandidate (gm : String → String) (explain : String → Option String)
    (schema nl : String) (k : Nat) : String :=
  _clean (gm (genAttemptPrompt gm explain schema nl k))

/-- The validation diagnostic of attempt `k`'s candidate. -/
def genDiag (gm : String → String) (explain : String → Option String)
    (schema nl : String) (k : Nat) : Option String :=
  (validate_select_sql explain (genCandidate gm explain schema nl k)).2

/-! ### Character-class facts -/

theorem matchCI_vals {p c : Char} (h : matchCI p c = true) :
    c.toNat = p.toNat ∨ c.toNat + 32 = p.toNat := by
  rcases (Bool.or_eq_true _ _).mp h with h1 | h1
  · exact Or.inl (congrArg Char.toNat (beq_iff_eq.mp h1))
  · exact Or.inr (of_decide_eq_true h1)

theorem isPySpace_vals {c : Char} (h : isPySpace c = true) :
    c.toNat = 32 ∨ c.toNat = 9 ∨ c.toNat = 10 ∨ c.toNat = 11 ∨
    c.toNat = 12 ∨ c.toNat = 13 :=
  of_decide_eq_true h

theorem isSemi_vals {c : Char} (h : isSemi c = true) : c.toNat = 59 :=
  of_decide_eq_true h

theorem matchCI_letter_range {p c : Char} (h97 : 97 ≤ p.toNat)
    (h122 : p.toNat ≤ 122) (h : matchCI p c = true) :
    65 ≤ c.toNat ∧ c.toNat ≤ 122 := by
  rcases matchCI_vals h with h1 | h1 <;> omega

theorem not_wordChar_of_pySpace {c : Char} (h : isPySpace c = true) :
    isWordChar c = false := by
  have hv := isPySpace_vals h
  exact decide_eq_false (by omega)

theorem limitPat_bounds : ∀ p ∈ limitPat, 97 ≤ p.toNat ∧ p.toNat ≤ 122 := by decide

theorem selectPat_bounds : ∀ p ∈ selectPat, 97 ≤ p.toNat ∧ p.toNat ≤ 122 := by decide

/-- A lowercase-letter pattern character never matches a whitespace or
semicolon character. -/
theorem matchCI_letter_no_space_semi {p c : Char} (h97 : 97 ≤ p.toNat)
    (h122 : p.toNat ≤ 122) (hc : isPySpace c = true ∨ isSemi c = true) :
    matchCI p c = false := by
  cases hmc : matchCI p c
  · rfl
  · exfalso
    have hr := matchCI_letter_range h97 h122 hmc
    rcases hc with hc | hc
    · have := isPySpace_vals hc; omega
    · have := isSemi_vals hc; omega

/-! ### Case-insensitive prefix matching -/

theorem ciTake_append {pat l t rem : List Char} (h : ciTake pat l = some rem) :
    ciTake pat (l ++ t) = some (rem ++ t) := by
  induction pat generalizing l rem with
  | nil =>
    simp only [ciTake, Option.some.injEq] at h
    subst h
    rfl
  | cons p ps ih =>
    cases l with
    | nil => simp [ciTake] at h
    | cons c l' =>
      simp only [ciTake, List.cons_append] at h ⊢
      by_cases hm : matchCI p c = true
      · rw [if_pos hm] at h ⊢
        exact ih h
      · rw [if_neg hm] at h
        exact absurd h (by simp)

theorem startsWithCI_append {pat l t : List Char}
    (h : startsWithCI pat l = true) : startsWithCI pat (l ++ t) = true := by
  unfold startsWithCI at h ⊢
  cases heq : ciTake pat l with
  | none => rw [heq] at h; simp at h
  | some rem => rw [ciTake_append heq]; rfl

/-- Matching a pattern against `x ++ suf` where the pattern cannot match any
character of `suf` stays within `x`. -/
theorem ciTake_append_suffix {pat x suf rem : List Char}
    (hpat : ∀ p ∈ pat, ∀ c ∈ suf, matchCI p c = false)
    (h : ciTake pat (x ++ suf) = some rem) :
    ∃ rem0, ciTake pat x = some rem0 ∧ rem = rem0 ++ suf := by
  induction pat generalizing x rem with
  | nil =>
    simp only [ciTake, Option.some.injEq] at h
    exact ⟨x, rfl, h.symm⟩
  | cons p ps ih =>
    cases x with
    | nil =>
      cases suf with
      | nil => simp [ciTake] at h
      | cons c s' =>
        rw [List.nil_append] at h
        simp only [ciTake] at h
        rw [if_neg (by simp [hpat p (by simp) c (by simp)])] at h
        exact absurd h (by simp)
    | cons c x' =>
      simp only [List.cons_append, ciTake] at h ⊢
      by_cases hm : matchCI p c = true
      · rw [if_pos hm] at h ⊢
        exact ih (fun q hq d hd => hpat q (by simp [hq]) d hd) h
      · rw [if_neg hm] at h
        exact absurd h (by simp)

theorem ciTake_eq_some_iff {pat l rem : List Char} :
    ciTake pat l = some rem ↔ ∃ m, l = m ++ rem ∧ matchesCI pat m = true := by
  constructor
  · intro h
    induction pat generalizing l rem with
    | nil =>
      simp only [ciTake, Option.some.injEq] at h
      exact ⟨[], by simp [h], rfl⟩
    | cons p ps ih =>
      cases l with
      | nil => simp [ciTake] at h
      | cons c l' =>
        simp only [ciTake] at h
        by_cases hm : matchCI p c = true
        · rw [if_pos hm] at h
          obtain ⟨m, hm1, hm2⟩ := ih h
          exact ⟨c :: m, by simp [hm1], by simp [matchesCI, hm, hm2]⟩
        · rw [if_neg hm] at h
          exact absurd h (by simp)
  · rintro ⟨m, rfl, hm⟩
    induction pat generalizing m with
    | nil =>
      cases m with
      | nil => rfl
      | cons c m' => simp [matchesCI] at hm
    | cons p ps ih =>
      cases m with
      | nil => simp [matchesCI] at hm
      | cons c m' =>
        obtain ⟨h1, h2⟩ := (Bool.and_eq_true _ _).mp hm
        simp only [List.cons_append, ciTake, if_pos h1]
        exact ih m' h2

/-! ### Strip decompositions -/

theorem rdropWhile_decomp (p : Char → Bool) (l : List Char) :
    ∃ suf, l = rdropWhile p l ++ suf ∧ ∀ c ∈ suf, p c = true := by
  refine ⟨(l.reverse.takeWhile p).reverse, ?_, ?_⟩
  · have h : rdropWhile p l ++ (l.reverse.takeWhile p).reverse = l := by
      unfold rdropWhile
      rw [← List.reverse_append, List.takeWhile_append_dropWhile, List.reverse_reverse]
    exact h.symm
  · intro c hc
    exact List.mem_takeWhile_imp (List.mem_reverse.mp hc)

theorem dropWhile_all_eq_nil {p : Char → Bool} {l : List Char}
    (h : ∀ c ∈ l, p c = true) : l.dropWhile p = [] := by
  induction l with
  | nil => rfl
  | cons c l' ih =>
    rw [List.dropWhile_cons, if_pos (h c (by simp))]
    exact ih (fun d hd => h d (by simp [hd]))

theorem pyStripL_all_space {l : List Char} (h : ∀ c ∈ l, isPySpace c = true) :
    pyStripL l = [] := by
  unfold pyStripL rdropWhile
  rw [dropWhile_all_eq_nil h]
  rfl

/-! ### Word-occurrence scan lemmas -/

theorem hasWordAux_prev {pat : List Char} {prev prev' : Option Char}
    (h : boundaryOk prev = boundaryOk prev') (l : List Char) :
    hasWordAux pat prev l = hasWordAux pat prev' l := by
  cases l <;> simp [hasWordAux, h]

/-- On a text all of whose characters are unmatchable by the (nonempty)
pattern, the whole-word scan fails. -/
theorem hasWordAux_no_match {pat : List Char} (hne : pat ≠ [])
    {q : Char → Bool} (hq : ∀ p ∈ pat, ∀ c, q c = true → matchCI p c = false)
    {suf : List Char} (hsuf : ∀ c ∈ suf, q c = true) :
    ∀ prev, hasWordAux pat prev suf = false := by
  induction suf with
  | nil => intro prev; rfl
  | cons c s ih =>
    intro prev
    have hkw : kwMatch pat (c :: s) = false := by
      cases pat with
      | nil => exact absurd rfl hne
      | cons p ps =>
        unfold kwMatch
        simp only [ciTake]
        rw [if_neg (by simp [hq p (by simp) c (hsuf c (by simp))])]
    simp only [hasWordAux, hkw, Bool.and_false, Bool.false_or]
    exact ih (fun d hd => hsuf d (by simp [hd])) (some c)

/-- Removing a suffix of unmatchable characters preserves a whole-word
occurrence of `limit`. -/
theorem hasWordAux_drop_suffix {q : Char → Bool}
    (hq : ∀ p ∈ limitPat, ∀ c, q c = true → matchCI p c = false)
    {suf : List Char} (hsuf : ∀ c ∈ suf, q c = true) :
    ∀ (r : List Char) (prev : Option Char),
      hasWordAux limitPat prev (r ++ suf) = true →
      hasWordAux limitPat prev r = true := by
  intro r
  induction r with
  | nil =>
    intro prev h
    rw [List.nil_append, hasWordAux_no_match (by decide) hq hsuf prev] at h
    exact absurd h (by simp)
  | cons c r' ih =>
    intro prev h
    simp only [List.cons_append, hasWordAux] at h ⊢
    rcases (Bool.or_eq_true _ _).mp h with h1 | h1
    · obtain ⟨hb, hk⟩ := (Bool.and_eq_true _ _).mp h1
      unfold kwMatch at hk
      split at hk
      case _ rem heq =>
        have heq2 : ciTake limitPat ((c :: r') ++ suf) = some rem := heq
        obtain ⟨rem0, hr0, hreq⟩ :=
          ciTake_append_suffix (fun p hp d hd => hq p hp d (hsuf d hd)) heq2
        have hafter : afterOk rem0 = true := by
          cases rem0 with
          | nil => rfl
          | cons d t =>
            subst hreq
            simpa [afterOk] using hk
        apply (Bool.or_eq_true _ _).mpr
        refine Or.inl ((Bool.and_eq_true _ _).mpr ⟨hb, ?_⟩)
        unfold kwMatch
        rw [hr0]
        exact hafter
      case _ heq => exact absurd hk (by simp)
    · exact (Bool.or_eq_true _ _).mpr (Or.inr (ih (some c) h1))

/-- Stripping leading whitespace preserves a whole-word occurrence of
`limit`. -/
theorem hasWordLimit_dropWhile_space {l : List Char}
    (h : hasWordAux limitPat none l = true) :
    hasWordAux limitPat none (l.dropWhile isPySpace) = true := by
  induction l with
  | nil => simp [hasWordAux] at h
  | cons c rest ih =>
    by_cases hc : isPySpace c = true
    · rw [List.dropWhile_cons, if_pos hc]
      have hkw : kwMatch limitPat (c :: rest) = false := by
        unfold kwMatch
        simp only [limitPat, ciTake]
        rw [if_neg (by simp
          [matchCI_letter_no_space_semi (p := 'l') (by decide) (by decide) (Or.inl hc)])]
      simp only [hasWordAux, hkw, Bool.and_false, Bool.false_or] at h
      have hb : boundaryOk (some c) = boundaryOk (none : Option Char) := by
        simp [boundaryOk, not_wordChar_of_pySpace hc]
      rw [hasWordAux_prev hb] at h
      exact ih h
    · rw [List.dropWhile_cons, if_neg hc]
      exact h

/-- A whole-word occurrence inside `l` survives prepending any text, for any
left context. -/
theorem hasWordAux_extend_left {pat l : List Char}
    (hl : ∀ q, hasWordAux pat q l = true) (xs : List Char) (prev : Option Char) :
    hasWordAux pat prev (xs ++ l) = true := by
  induction xs generalizing prev with
  | nil => exact hl prev
  | cons c xs' ih =>
    simp only [List.cons_append, hasWordAux]
    exact (Bool.or_eq_true _ _).mpr (Or.inr (ih (some c)))

/-! ### Decimal printer facts -/

theorem digitChar_range (d : Nat) :
    48 ≤ (digitChar d).toNat ∧ (digitChar d).toNat ≤ 57 := by
  unfold digitChar
  split <;> decide

theorem natReprAux_digits :
    ∀ fuel n (acc : List Char), (∀ c ∈ acc, 48 ≤ c.toNat ∧ c.toNat ≤ 57) →
      ∀ c ∈ natReprAux fuel n acc, 48 ≤ c.toNat ∧ c.toNat ≤ 57 := by
  intro fuel
  induction fuel with
  | zero => intro n acc hacc; exact hacc
  | succ k ih =>
    intro n acc hacc c hc
    simp only [natReprAux] at hc
    by_cases hn : n < 10
    · rw [if_pos hn] at hc
      rcases List.mem_cons.mp hc with h | h
      · subst h; exact digitChar_range n
      · exact hacc c h
    · rw [if_neg hn] at hc
      refine ih (n / 10) (digitChar (n % 10) :: acc) ?_ c hc
      intro d hd
      rcases List.mem_cons.mp hd with h | h
      · subst h; exact digitChar_range (n % 10)
      · exact hacc d h

theorem natRepr_digits (n : Nat) :
    ∀ c ∈ natRepr n, 48 ≤ c.toNat ∧ c.toNat ≤ 57 :=
  natReprAux_digits (n + 1) n [] (by simp)

theorem natReprAux_ne_nil :
    ∀ fuel n (acc : List Char), fuel ≠ 0 ∨ acc ≠ [] →
      natReprAux fuel n acc ≠ [] := by
  intro fuel
  induction fuel with
  | zero =>
    intro n acc h
    rcases h with h | h
    · exact absurd rfl h
    · exact h
  | succ k ih =>
    intro n acc _
    simp only [natReprAux]
    by_cases hn : n < 10
    · rw [if_pos hn]; exact List.cons_ne_nil _ _
    · rw [if_neg hn]
      exact ih (n / 10) (digitChar (n % 10) :: acc) (Or.inr (List.cons_ne_nil _ _))

theorem natRepr_ne_nil (n : Nat) : natRepr n ≠ [] :=
  natReprAux_ne_nil (n + 1) n [] (Or.inl (by simp))

/-! ### Bridge lemmas between the stripped views of a statement -/

theorem rstripSemisL_decomp (m : List Char) :
    ∃ suf, m = rstripSemisL m ++ suf ∧ ∀ c ∈ suf, isSemi c = true := by
  unfold rstripSemisL
  exact rdropWhile_decomp isSemi m

theorem pyStripL_decomp (l : List Char) :
    ∃ suf, l.dropWhile isPySpace = pyStripL l ++ suf ∧
      ∀ c ∈ suf, isPySpace c = true := by
  unfold pyStripL
  exact rdropWhile_decomp isPySpace (l.dropWhile isPySpace)

theorem limitPat_no_space : ∀ p ∈ limitPat, ∀ c, isPySpace c = true →
    matchCI p c = false := by
  intro p hp c hc
  obtain ⟨h1, h2⟩ := limitPat_bounds p hp
  exact matchCI_letter_no_space_semi h1 h2 (Or.inl hc)

theorem limitPat_no_semi : ∀ p ∈ limitPat, ∀ c, isSemi c = true →
    matchCI p c = false := by
  intro p hp c hc
  obtain ⟨h1, h2⟩ := limitPat_bounds p hp
  exact matchCI_letter_no_space_semi h1 h2 (Or.inr hc)

/-- A whole-word `limit` occurrence in the raw statement survives
`strip().rstrip(";")`. -/
theorem hasWordLimit_strip {l : List Char} (h : hasWordLimit l = true) :
    hasWordLimit (rstripSemisL (pyStripL l)) = true := by
  unfold hasWordLimit at h ⊢
  have h1 := hasWordLimit_dropWhile_space h
  obtain ⟨suf1, hdec1, hsuf1⟩ := pyStripL_decomp l
  have h2 : hasWordAux limitPat none (pyStripL l) = true := by
    apply hasWordAux_drop_suffix limitPat_no_space hsuf1 _ none
    rw [← hdec1]
    exact h1
  obtain ⟨suf2, hdec2, hsuf2⟩ := rstripSemisL_decomp (pyStripL l)
  apply hasWordAux_drop_suffix limitPat_no_semi hsuf2 _ none
  rw [← hdec2]
  exact h2

/-- Trailing semicolons do not affect the `select` prefix test. -/
theorem startsSelect_rstrip (m : List Char) :
    startsSelect (rstripSemisL m) = startsSelect m := by
  obtain ⟨suf, hdec, hsuf⟩ := rstripSemisL_decomp m
  have hq : ∀ p ∈ selectPat, ∀ c ∈ suf, matchCI p c = false := by
    intro p hp c hc
    obtain ⟨h1, h2⟩ := selectPat_bounds p hp
    exact matchCI_letter_no_space_semi h1 h2 (Or.inr (hsuf c hc))
  cases hL : startsSelect (rstripSemisL m) with
  | true =>
    unfold startsSelect startsWithCI at hL ⊢
    cases heq : ciTake selectPat (rstripSemisL m) with
    | none => rw [heq] at hL; simp at hL
    | some rem =>
      conv_rhs => rw [hdec]
      rw [ciTake_append heq]
      rfl
  | false =>
    cases hM : startsSelect m with
    | false => rfl
    | true =>
      exfalso
      unfold startsSelect startsWithCI at hM hL
      cases heq : ciTake selectPat m with
      | none => rw [heq] at hM; simp at hM
      | some rem =>
        rw [hdec] at heq
        obtain ⟨rem0, hr0, _⟩ := ciTake_append_suffix hq heq
        rw [hr0] at hL
        simp at hL

theorem mutationKeywords_head :
    ∀ kw ∈ mutationKeywords, kw ≠ [] ∧ 97 ≤ (kw.headD 'a').toNat ∧
      (kw.headD 'a').toNat ≤ 122 ∧ (kw.headD 'a').toNat ≠ 115 := by decide

/-- A statement that matches a mutation keyword cannot pass the `select`
prefix test after `rstrip(";")`: the keywords' first letters all differ
from `s`. -/
theorem not_startsSelect_of_mutation {l : List Char}
    (h : mutationKeywords.any (fun kw => kwMatch kw l) = true) :
    startsSelect (rstripSemisL l) = false := by
  obtain ⟨kw, hmem, hkw⟩ := List.any_eq_true.mp h
  have hhead := mutationKeywords_head kw hmem
  cases kw with
  | nil => exact absurd rfl hhead.1
  | cons c0 ks =>
    obtain ⟨-, hb1, hb2, hb3⟩ := hhead
    simp only [List.headD_cons] at hb1 hb2 hb3
    unfold kwMatch at hkw
    split at hkw
    case _ rem heq =>
      cases l with
      | nil => simp [ciTake] at heq
      | cons ch l' =>
        simp only [ciTake] at heq
        by_cases hm : matchCI c0 ch = true
        · cases hsel : startsSelect (rstripSemisL (ch :: l')) with
          | false => rfl
          | true =>
            exfalso
            obtain ⟨suf, hdec, _⟩ := rstripSemisL_decomp (ch :: l')
            unfold startsSelect startsWithCI at hsel
            cases heq2 : ciTake selectPat (rstripSemisL (ch :: l')) with
            | none => rw [heq2] at hsel; simp at hsel
            | some rem2 =>
              cases hr : rstripSemisL (ch :: l') with
              | nil => rw [hr] at heq2; simp [ciTake, selectPat] at heq2
              | cons d t =>
                rw [hr] at hdec
                rw [List.cons_append] at hdec
                have hd : d = ch := (List.cons.injEq ch l' d (t ++ suf) ▸ hdec).1.symm
                rw [hr] at heq2
                simp only [selectPat, ciTake] at heq2
                by_cases hm2 : matchCI 's' d = true
                · subst hd
                  have v1 := matchCI_vals hm
                  have v2 := matchCI_vals hm2
                  have hs : ('s').toNat = 115 := by decide
                  omega
                · rw [if_neg hm2] at heq2
                  exact absurd heq2 (by simp)
        · rw [if_neg hm] at heq
          exact absurd heq (by simp)
    case _ => exact absurd hkw (by simp)

/-- A rejecting validator run exposes the engine's diagnostic. -/
theorem validate_rejected {explain : String → Option String} {s : String}
    (h : (validate_select_sql explain s).1 = false) :
    ∃ e, validate_select_sql explain s = (false, some e) := by
  cases hs : startsSelect (rstripSemisL (pyStripL s.data)) with
  | false =>
    exfalso
    simp [validate_select_sql, hs] at h
  | true =>
    cases hex : explain ("EXPLAIN QUERY PLAN " ++
        String.mk (rstripSemisL (pyStripL s.data))) with
    | none =>
      exfalso
      simp [validate_select_sql, hs, hex] at h
    | some e =>
      refine ⟨e, ?_⟩
      simp [validate_select_sql, hs, hex]

/-! ### Shape lemmas for `ensure_limit` -/

theorem rdropWhile_last_false {p : Char → Bool} {l : List Char} {c : Char}
    (hc : p c = false) : rdropWhile p (l ++ [c]) = l ++ [c] := by
  unfold rdropWhile
  rw [List.reverse_append, List.reverse_singleton, List.singleton_append,
    List.dropWhile_cons, if_neg (by simp [hc])]
  simp

theorem rdropWhile_last_true {p : Char → Bool} {l : List Char} {c : Char}
    (hc : p c = true) : rdropWhile p (l ++ [c]) = rdropWhile p l := by
  unfold rdropWhile
  rw [List.reverse_append, List.reverse_singleton, List.singleton_append,
    List.dropWhile_cons, if_pos hc]

theorem startsSelect_head {s : List Char} (h : startsSelect s = true) :
    ∃ ch t, s = ch :: t ∧ matchCI 's' ch = true := by
  unfold startsSelect startsWithCI at h
  cases s with
  | nil => simp [ciTake, selectPat] at h
  | cons ch t =>
    refine ⟨ch, t, rfl, ?_⟩
    by_cases hm : matchCI 's' ch = true
    · exact hm
    · exfalso
      simp only [selectPat, ciTake, if_neg hm] at h
      simp at h

/-- The first character of a statement passing the `select` test is not
whitespace. -/
theorem startsSelect_head_not_space {ch : Char} (hm : matchCI 's' ch = true) :
    isPySpace ch = false := by
  have hr := matchCI_letter_range (p := 's') (by decide) (by decide) hm
  exact decide_eq_false (by omega)

/-- Python `strip()` leaves the appended `… LIMIT n;` statement unchanged:
it starts with a `select` letter and ends with the semicolon. -/
theorem pyStripL_append_shape {ch : Char} (hch : isPySpace ch = false)
    (tail X : List Char) :
    pyStripL (((ch :: tail) ++ X) ++ [';']) = ((ch :: tail) ++ X) ++ [';'] := by
  unfold pyStripL
  have h1 : List.dropWhile isPySpace (((ch :: tail) ++ X) ++ [';'])
      = ((ch :: tail) ++ X) ++ [';'] := by
    rw [show ((ch :: tail) ++ X) ++ [';'] = ch :: ((tail ++ X) ++ [';']) by simp]
    rw [List.dropWhile_cons, if_neg (by simp [hch])]
  rw [h1]
  exact rdropWhile_last_false (by decide)

/-- Python `rstrip(";")` on `Y ++ digits ++ ";"` removes exactly the final
semicolon. -/
theorem rstripSemisL_append_digits (Y : List Char) (n : Nat) :
    rstripSemisL ((Y ++ natRepr n) ++ [';']) = Y ++ natRepr n := by
  have h1 : rstripSemisL ((Y ++ natRepr n) ++ [';'])
      = rstripSemisL (Y ++ natRepr n) := by
    unfold rstripSemisL
    exact rdropWhile_last_true (by decide)
  rw [h1]
  rcases (natRepr n).eq_nil_or_concat with hnil | ⟨init, d, hnr⟩
  · exact absurd hnil (natRepr_ne_nil n)
  · rw [List.concat_eq_append] at hnr
    rw [hnr, ← List.append_assoc]
    unfold rstripSemisL
    apply rdropWhile_last_false
    have hd : d ∈ natRepr n := by rw [hnr]; simp
    have hdig := natRepr_digits n d hd
    exact decide_eq_false (by omega)

/-- The inserted `LIMIT` clause always carries a whole-word `limit`
occurrence, for any left context and any digit tail. -/
theorem hasWordAux_limit_clause (q : Option Char) (nr : List Char) :
    hasWordAux limitPat q (limitKeywordChars ++ nr) = true := by
  have hE : matchCI 'l' ' ' = false := by decide
  have hA : matchCI 'l' 'L' = true := by decide
  have hB : matchCI 'i' 'I' = true := by decide
  have hC : matchCI 'm' 'M' = true := by decide
  have hD : matchCI 't' 'T' = true := by decide
  have hF : isWordChar ' ' = false := by decide
  show hasWordAux limitPat q
    (' ' :: 'L' :: 'I' :: 'M' :: 'I' :: 'T' :: ' ' :: nr) = true
  simp only [hasWordAux, kwMatch, limitPat, ciTake, hE, hA, hB, hC, hD,
    if_true, if_false, boundaryOk, afterOk, hF, Bool.not_false, Bool.true_and,
    Bool.and_false, Bool.false_or]
  simp

/-- The statement produced by the third branch of `ensure_limit` passes the
`select` test and the `limit` search, so a second application returns it
unchanged. -/
theorem ensure_limit_fixpoint {s : List Char} (hsel : startsSelect s = true)
    (n m : Nat) :
    ensure_limit (String.mk (s ++ limitKeywordChars ++ natRepr n ++ [';'])) m
      = String.mk (s ++ limitKeywordChars ++ natRepr n ++ [';']) := by
  obtain ⟨ch, tail, hs, hm⟩ := startsSelect_head hsel
  have hch := startsSelect_head_not_space hm
  have hstrip : pyStripL ((s ++ limitKeywordChars ++ natRepr n) ++ [';'])
      = (s ++ limitKeywordChars ++ natRepr n) ++ [';'] := by
    rw [hs]
    rw [show ((ch :: tail) ++ limitKeywordChars ++ natRepr n)
        = (ch :: tail) ++ (limitKeywordChars ++ natRepr n) by simp]
    exact pyStripL_append_shape hch tail (limitKeywordChars ++ natRepr n)
  have hrs : rstripSemisL ((s ++ limitKeywordChars ++ natRepr n) ++ [';'])
      = s ++ limitKeywordChars ++ natRepr n := by
    rw [show (s ++ limitKeywordChars ++ natRepr n)
        = (s ++ limitKeywordChars) ++ natRepr n by simp]
    exact rstripSemisL_append_digits (s ++ limitKeywordChars) n
  have hsel2 : startsSelect (s ++ (limitKeywordChars ++ natRepr n)) = true := by
    unfold startsSelect at hsel ⊢
    cases heq : ciTake selectPat s with
    | none => unfold startsWithCI at hsel; rw [heq] at hsel; simp at hsel
    | some rem => unfold startsWithCI; rw [ciTake_append heq]; rfl
  have hlim2 : hasWordLimit (s ++ (limitKeywordChars ++ natRepr n)) = true := by
    unfold hasWordLimit
    exact hasWordAux_extend_left (fun q => hasWordAux_limit_clause q (natRepr n)) s none
  have hdata : (String.mk (s ++ limitKeywordChars ++ natRepr n ++ [';'])).data
      = (s ++ limitKeywordChars ++ natRepr n) ++ [';'] := rfl
  unfold ensure_limit
  rw [hdata, hstrip, hrs]
  simp [hsel2, hlim2]

/-! ### Keyword-match characterisation -/

theorem kwMatch_eq_true_iff {pat l : List Char} :
    kwMatch pat l = true ↔ ∃ m rem, l = m ++ rem ∧ matchesCI pat m = true ∧
      (rem = [] ∨ ∃ c t, rem = c :: t ∧ isWordChar c = false) := by
  unfold kwMatch
  constructor
  · intro h
    split at h
    case _ rem heq =>
      obtain ⟨m, hm1, hm2⟩ := ciTake_eq_some_iff.mp heq
      refine ⟨m, rem, hm1, hm2, ?_⟩
      cases rem with
      | nil => exact Or.inl rfl
      | cons c t =>
        refine Or.inr ⟨c, t, rfl, ?_⟩
        simpa [afterOk] using h
    case _ => exact absurd h (by simp)
  · rintro ⟨m, rem, rfl, hm, hrem⟩
    rw [ciTake_eq_some_iff.mpr ⟨m, rfl, hm⟩]
    rcases hrem with rfl | ⟨c, t, rfl, hc⟩
    · rfl
    · simp [afterOk, hc]

/-! ### Claim theorems -/

/-- C2: `is_mutation` returns true if and only if the trimmed statement
starts, case-insensitively, with one of the eight mutating keywords followed
by a word boundary; it returns false on `"SELECT 1"`, `"  select * from t"`,
the empty string, and every whitespace-only string. Purity, totality and
determinism hold by construction: it is a total Lean function. -/
theorem classifier_c2 :
    (∀ s : String, is_mutation s = true ↔ specMutating s) ∧
    is_mutation "SELECT 1" = false ∧
    is_mutation "  select * from t" = false ∧
    is_mutation "" = false ∧
    (∀ s : String, (∀ c ∈ s.data, isPySpace c = true) → is_mutation s = false) := by
  refine ⟨?_, by decide, by decide, by decide, ?_⟩
  · intro s
    unfold is_mutation specMutating
    rw [List.any_eq_true]
    constructor
    · rintro ⟨kw, hmem, hself⟩
      obtain ⟨m, rem, h1, h2, h3⟩ := kwMatch_eq_true_iff.mp hself
      exact ⟨kw, hmem, m, rem, h1, h2, h3⟩
    · rintro ⟨kw, hmem, m, rem, h1, h2, h3⟩
      exact ⟨kw, hmem, kwMatch_eq_true_iff.mpr ⟨m, rem, h1, h2, h3⟩⟩
  · intro s hws
    unfold is_mutation
    rw [pyStripL_all_space hws]
    decide

theorem classifier_c2_witness :
    (∀ c ∈ (" \t\n" : String).data, isPySpace c = true) ∧
    is_mutation " \t\n" = false ∧
    (is_mutation "DROP TABLE t" = true ↔ specMutating "DROP TABLE t") :=
  ⟨by decide, classifier_c2.2.2.2.2 " \t\n" (by decide),
   classifier_c2.1 "DROP TABLE t"⟩

/-- C4: for a statement whose trimmed, case-insensitive form starts with
`select`, the validator accepts with no diagnostic exactly when the engine's
plan-only check reports no error, and rejects with the engine's message as
diagnostic exactly when it reports one; every other statement (including the
empty one) is accepted unconditionally. -/
theorem validator_c4 (explain : String → Option String) (sql : String) :
    (startsSelect (pyStripL sql.data) = true →
      (explain ("EXPLAIN QUERY PLAN " ++
          String.mk (rstripSemisL (pyStripL sql.data))) = none →
        validate_select_sql explain sql = (true, none)) ∧
      (∀ e, explain ("EXPLAIN QUERY PLAN " ++
          String.mk (rstripSemisL (pyStripL sql.data))) = some e →
        validate_select_sql explain sql = (false, some e))) ∧
    (startsSelect (pyStripL sql.data) = false →
      validate_select_sql explain sql = (true, none)) := by
  have hsel := startsSelect_rstrip (pyStripL sql.data)
  constructor
  · intro h
    rw [h] at hsel
    constructor
    · intro hex
      simp [validate_select_sql, hsel, hex]
    · intro e hex
      simp [validate_select_sql, hsel, hex]
  · intro h
    rw [h] at hsel
    simp [validate_select_sql, hsel]

theorem validator_c4_witness :
    startsSelect (pyStripL ("select * from ghost" : String).data) = true ∧
    validate_select_sql explainFail "select * from ghost"
      = (false, some "no such table: ghost") ∧
    startsSelect (pyStripL ("update t set x = 1" : String).data) = false ∧
    validate_select_sql explainFail "update t set x = 1" = (true, none) :=
  ⟨by decide,
   ((validator_c4 explainFail "select * from ghost").1 (by decide)).2 _ rfl,
   by decide,
   (validator_c4 explainFail "update t set x = 1").2 (by decide)⟩

/-- C5: bound injection is idempotent. A read statement already containing a
whole-word `limit` keyword is returned unchanged, and applying
`ensure_limit` twice with the same default bound equals applying it once. -/
theorem bound_idem_c5 (sql : String) (n : Nat) :
    (is_mutation sql = false → hasWordLimit sql.data = true →
      ensure_limit sql n = sql) ∧
    ensure_limit (ensure_limit sql n) n = ensure_limit sql n := by
  constructor
  · intro _ hlim
    have h2 := hasWordLimit_strip hlim
    cases hsel : startsSelect (rstripSemisL (pyStripL sql.data)) with
    | false => simp [ensure_limit, hsel]
    | true => simp [ensure_limit, hsel, h2]
  · cases hsel : startsSelect (rstripSemisL (pyStripL sql.data)) with
    | false =>
      have h1 : ensure_limit sql n = sql := by simp [ensure_limit, hsel]
      rw [h1]
      exact h1
    | true =>
      cases hlim : hasWordLimit (rstripSemisL (pyStripL sql.data)) with
      | true =>
        have h1 : ensure_limit sql n = sql := by simp [ensure_limit, hsel, hlim]
        rw [h1]
        exact h1
      | false =>
        have h1 : ensure_limit sql n = String.mk
            (rstripSemisL (pyStripL sql.data) ++ limitKeywordChars ++
              natRepr n ++ [';']) := by
          simp [ensure_limit, hsel, hlim]
        rw [h1]
        exact ensure_limit_fixpoint hsel n n

theorem bound_idem_c5_witness :
    is_mutation "select * from t limit 5" = false ∧
    hasWordLimit ("select * from t limit 5" : String).data = true ∧
    ensure_limit "select * from t limit 5" 1000 = "select * from t limit 5" ∧
    ensure_limit (ensure_limit "select * from t" 1000) 1000
      = ensure_limit "select * from t" 1000 :=
  ⟨by decide, by decide,
   (bound_idem_c5 "select * from t limit 5" 1000).1 (by decide) (by decide),
   (bound_idem_c5 "select * from t" 1000).2⟩

/-- C6: mutating statements are never bound-rewritten. `ensure_limit`
returns any mutating statement unchanged; `run_sql_safe` hands it to
`execute_query` exactly as given; and the confirmed run path of the app
executes exactly that statement. -/
theorem mutation_frame_c6 (sql : String) (n : Nat) (h : is_mutation sql = true) :
    ensure_limit sql n = sql ∧
    (∀ (DB Row : Type) (engine : String → DB → Except String (DB × List Row))
        (db : DB), run_sql_safe engine sql n db = execute_query engine sql db) ∧
    (∀ (DB Row : Type) (engine : String → DB → Except String (DB × List Row))
        (st : AppState DB Row),
      (runConfirmedButton engine sql true n st).2
        = RunDisplay.ran (execute_query engine sql st.db).1.1
            (execute_query engine sql st.db).1.2) := by
  have hsel : startsSelect (rstripSemisL (pyStripL sql.data)) = false := by
    apply not_startsSelect_of_mutation
    unfold is_mutation at h
    exact h
  refine ⟨by simp [ensure_limit, hsel], ?_, ?_⟩
  · intro DB Row engine db
    simp [run_sql_safe, h]
  · intro DB Row engine st
    simp [runConfirmedButton, run_sql_safe, h]

theorem mutation_frame_c6_witness :
    is_mutation "DELETE FROM orders" = true ∧
    ensure_limit "DELETE FROM orders" 1000 = "DELETE FROM orders" ∧
    run_sql_safe errEngine "DELETE FROM orders" 1000 ()
      = execute_query errEngine "DELETE FROM orders" () :=
  ⟨by decide,
   (mutation_frame_c6 "DELETE FROM orders" 1000 (by decide)).1,
   (mutation_frame_c6 "DELETE FROM orders" 1000 (by decide)).2.1
     Unit Unit errEngine ()⟩

/-- C7: `execute_query` always returns a structured outcome: status is
exactly `"ok"` when the engine succeeds, and `"error: "` followed by the
engine's message, with no rows, when the engine reports an error; the
`errStatus` test on the status string alone separates the two cases. -/
theorem exec_status_c7 (DB Row : Type)
    (engine : String → DB → Except String (DB × List Row)) (q : String)
    (db : DB) :
    ((∃ p, engine q db = Except.ok p) → (execute_query engine q db).1.1 = "ok") ∧
    (∀ e, engine q db = Except.error e →
      (execute_query engine q db).1 = ("error: " ++ e, none)) ∧
    (errStatus (execute_query engine q db).1.1 = true ↔
      ∃ e, engine q db = Except.error e) := by
  cases hengine : engine q db with
  | ok p =>
    have hok : (execute_query engine q db).1.1 = "ok" := by
      cases hsel : startsSelect (pyStripL q.data) <;>
        simp [execute_query, hengine, hsel]
    refine ⟨fun _ => hok, ?_, ?_⟩
    · intro e he
      exact absurd he (by simp)
    · rw [hok]
      constructor
      · intro h
        exact absurd h (by decide)
      · rintro ⟨e, he⟩
        exact absurd he (by simp)
  | error e =>
    have herr : (execute_query engine q db).1 = ("error: " ++ e, none) := by
      simp [execute_query, hengine]
    refine ⟨?_, ?_, ?_⟩
    · rintro ⟨p, hp⟩
      exact absurd hp (by simp)
    · intro e' he
      have he2 : e = e' := by injection he
      subst he2
      exact herr
    · rw [show (execute_query engine q db).1.1 = "error: " ++ e from by rw [herr]]
      constructor
      · intro _
        exact ⟨e, rfl⟩
      · intro _
        have hdata : ("error: " ++ e).data = "error: ".data ++ e.data :=
          String.data_append _ _
        simp [errStatus, hdata, List.isPrefixOf_iff_prefix]

theorem exec_status_c7_witness :
    (∃ p, okEngine "select 1" () = Except.ok p) ∧
    (execute_query okEngine "select 1" ()).1.1 = "ok" ∧
    (execute_query errEngine "select 1" ()).1 = ("error: " ++ "boom", none) ∧
    (errStatus (execute_query errEngine "select 1" ()).1.1 = true ↔
      ∃ e, errEngine "select 1" () = Except.error e) :=
  ⟨⟨((), [()]), rfl⟩,
   (exec_status_c7 Unit Unit okEngine "select 1" ()).1 ⟨((), [()]), rfl⟩,
   (exec_status_c7 Unit Unit errEngine "select 1" ()).2.1 "boom" rfl,
   (exec_status_c7 Unit Unit errEngine "select 1" ()).2.2⟩

/-- C8: a successful execution carries a row sequence exactly when the
statement is a read — in this system a statement whose trimmed,
case-insensitive form starts with `select` — and no rows otherwise. -/
theorem exec_rows_c8 (DB Row : Type)
    (engine : String → DB → Except String (DB × List Row)) (q : String)
    (db db' : DB) (rows : List Row) (h : engine q db = Except.ok (db', rows)) :
    (startsSelect (pyStripL q.data) = true →
      (execute_query engine q db).1.2 = some rows) ∧
    (startsSelect (pyStripL q.data) = false →
      (execute_query engine q db).1.2 = none) := by
  constructor <;> intro hs <;> simp [execute_query, h, hs]

theorem exec_rows_c8_witness :
    okEngine "select 1" () = Except.ok ((), [()]) ∧
    startsSelect (pyStripL ("select 1" : String).data) = true ∧
    (execute_query okEngine "select 1" ()).1.2 = some [()] ∧
    startsSelect (pyStripL ("pragma table_info(t)" : String).data) = false ∧
    (execute_query okEngine "pragma table_info(t)" ()).1.2 = none :=
  ⟨rfl, by decide,
   (exec_rows_c8 Unit Unit okEngine "select 1" () () [()] rfl).1 (by decide),
   by decide,
   (exec_rows_c8 Unit Unit okEngine "pragma table_info(t)" () () [()] rfl).2
     (by decide)⟩

/-- C1: guard refusal is absolute. For a mutating statement with the
confirmation flag false, the confirmed-run entry point returns the
confirmation-required refusal with the session state unchanged, and the
direct-run entry point likewise refuses; the right-hand sides do not mention
the engine, so no database call can occur. -/
theorem guard_refusal_c1 (DB Row : Type)
    (engine : String → DB → Except String (DB × List Row)) (sql : String)
    (n : Nat) (st : AppState DB Row) (h : is_mutation sql = true) :
    runConfirmedButton engine sql false n st = (st, RunDisplay.checkBoxError) ∧
    runQueryButton engine sql n st = (st, RunDisplay.confirmBelowWarning) := by
  constructor
  · simp [runConfirmedButton, h]
  · simp [runQueryButton, h]

theorem guard_refusal_c1_witness :
    is_mutation "DELETE FROM orders" = true ∧
    runConfirmedButton errEngine "DELETE FROM orders" false 1000 unitState
      = (unitState, RunDisplay.checkBoxError) ∧
    runQueryButton errEngine "DELETE FROM orders" 1000 unitState
      = (unitState, RunDisplay.confirmBelowWarning) :=
  ⟨by decide,
   (guard_refusal_c1 Unit Unit errEngine "DELETE FROM orders" 1000 unitState
     (by decide)).1,
   (guard_refusal_c1 Unit Unit errEngine "DELETE FROM orders" 1000 unitState
     (by decide)).2⟩

/-- C9: every history entry appended by either run entry point records
`confirmed = true`, whatever the statement and the checkbox state; in
particular the direct path appends `confirmed = true` even for an
unconfirmed run. -/
theorem ledger_confirmed_c9 (DB Row : Type)
    (engine : String → DB → Except String (DB × List Row)) (sql : String)
    (confirmed : Bool) (n : Nat) (st : AppState DB Row) :
    (∀ e ∈ (runQueryButton engine sql n st).1.history,
      e ∈ st.history ∨ e.confirmed = true) ∧
    (∀ e ∈ (runConfirmedButton engine sql confirmed n st).1.history,
      e ∈ st.history ∨ e.confirmed = true) ∧
    (is_mutation sql = false →
      ∃ entry, (runConfirmedButton engine sql false n st).1.history
          = st.history ++ [entry] ∧ entry.confirmed = true) := by
  refine ⟨?_, ?_, ?_⟩
  · intro e he
    unfold runQueryButton at he
    split at he
    · exact Or.inl he
    · simp only [List.mem_append] at he
      rcases he with he | he
      · exact Or.inl he
      · right
        simp only [List.mem_singleton] at he
        rw [he]
  · intro e he
    unfold runConfirmedButton at he
    split at he
    · exact Or.inl he
    · simp only [List.mem_append] at he
      rcases he with he | he
      · exact Or.inl he
      · right
        simp only [List.mem_singleton] at he
        rw [he]
        simp
  · intro hm
    unfold runConfirmedButton
    rw [if_neg (by simp [hm])]
    exact ⟨_, rfl, by simp⟩

theorem ledger_confirmed_c9_witness :
    is_mutation "select 1" = false ∧
    (∃ entry, (runConfirmedButton okEngine "select 1" false 1000 unitState).1.history
        = unitState.history ++ [entry] ∧ entry.confirmed = true) :=
  ⟨by decide,
   (ledger_confirmed_c9 Unit Unit okEngine "select 1" false 1000 unitState).2.2
     (by decide)⟩

/-- C3: when the validator rejects every cleaned candidate, the retry loop
makes exactly 3 model invocations (the prompts, in order, are the base
prompt and two feedback prompts), terminates, returns the last candidate
with the exhausted reasoning naming the last diagnostic, and every retry
prompt embeds the prior attempt's diagnostic verbatim between the fixed
prompt prefix and suffix. -/
theorem retry_exhaustion_c3 (gm : String → String)
    (explain : String → Option String) (schema nl : String)
    (H : ∀ p, (validate_select_sql explain (_clean (gm p))).1 = false) :
    genPrompts gm explain schema nl
      = [genAttemptPrompt gm explain schema nl 0,
         genAttemptPrompt gm explain schema nl 1,
         genAttemptPrompt gm explain schema nl 2] ∧
    (genPrompts gm explain schema nl).length = 3 ∧
    generate_sql_from_nl gm explain schema nl
      = (genCandidate gm explain schema nl 2,
         exhaustedReasoning (genDiag gm explain schema nl 2)) ∧
    (∀ k, ∃ m, genDiag gm explain schema nl k = some m ∧
      genAttemptPrompt gm explain schema nl (k + 1)
        = retryPre schema nl ++ m ++ retrySuf) ∧
    (∃ m, genDiag gm explain schema nl 2 = some m ∧
      generate_sql_from_nl gm explain schema nl
        = (genCandidate gm explain schema nl 2,
           "Model attempts exhausted; last validation error: " ++ m)) := by
  have hdiag : ∀ k, ∃ m, genDiag gm explain schema nl k = some m ∧
      genAttemptPrompt gm explain schema nl (k + 1)
        = retryPre schema nl ++ m ++ retrySuf := by
    intro k
    obtain ⟨e, hv⟩ := validate_rejected (H (genAttemptPrompt gm explain schema nl k))
    refine ⟨e, ?_, ?_⟩
    · unfold genDiag genCandidate
      rw [hv]
    · show retryPrompt schema nl
        (validate_select_sql explain
          (_clean (gm (genAttemptPrompt gm explain schema nl k)))).2
        = retryPre schema nl ++ e ++ retrySuf
      rw [hv]
      rfl
  have master : genLoop gm explain schema nl 3 (basePrompt schema nl) none ""
      = ((genCandidate gm explain schema nl 2,
          exhaustedReasoning (genDiag gm explain schema nl 2)),
         [genAttemptPrompt gm explain schema nl 0,
          genAttemptPrompt gm explain schema nl 1,
          genAttemptPrompt gm explain schema nl 2]) := by
    simp [genLoop, H, genCandidate, genDiag, genAttemptPrompt]
  refine ⟨?_, ?_, ?_, hdiag, ?_⟩
  · unfold genPrompts
    rw [master]
  · unfold genPrompts
    rw [master]
    rfl
  · unfold generate_sql_from_nl
    rw [master]
  · obtain ⟨m, hm, -⟩ := hdiag 2
    refine ⟨m, hm, ?_⟩
    unfold generate_sql_from_nl
    rw [master, hm]
    rfl

set_option maxHeartbeats 1000000 in
theorem retry_exhaustion_c3_witness :
    (∀ p, (validate_select_sql explainFail (_clean (gmSelect p))).1 = false) ∧
    (genPrompts gmSelect explainFail "S" "N").length = 3 ∧
    generate_sql_from_nl gmSelect explainFail "S" "N"
      = (genCandidate gmSelect explainFail "S" "N" 2,
         exhaustedReasoning (genDiag gmSelect explainFail "S" "N" 2)) := by
  have hH : ∀ p, (validate_select_sql explainFail (_clean (gmSelect p))).1 = false := by
    intro p
    show (validate_select_sql explainFail (_clean "select 1")).1 = false
    decide
  exact ⟨hH,
    (retry_exhaustion_c3 gmSelect explainFail "S" "N" hH).2.1,
    (retry_exhaustion_c3 gmSelect explainFail "S" "N" hH).2.2.1⟩

/-- C10: a model output that is empty, whitespace-only, or a bare dialect
name cleans to the empty candidate; the validator accepts the empty
statement unconditionally; and the generator then returns the empty
statement paired with the fixed success reasoning, reporting it as
validated. -/
theorem empty_validated_c10 :
    _clean "" = "" ∧
    (∀ s : String, (∀ c ∈ s.data, isPySpace c = true) → _clean s = "") ∧
    (∀ d ∈ dialectNames, _clean (String.mk d) = "") ∧
    (∀ explain : String → Option String,
      validate_select_sql explain "" = (true, none)) ∧
    (∀ (gm : String → String) (explain : String → Option String)
        (schema nl : String),
      _clean (gm (basePrompt schema nl)) = "" →
      generate_sql_from_nl gm explain schema nl = ("", successReasoning)) := by
  refine ⟨by decide, ?_, by decide, fun _ => rfl, ?_⟩
  · intro s h
    unfold _clean
    rw [pyStripL_all_space h]
    decide
  · intro gm explain schema nl hcl
    have hv : validate_select_sql explain "" = (true, none) := rfl
    unfold generate_sql_from_nl
    simp [genLoop, hcl, hv]

theorem empty_validated_c10_witness :
    _clean (gmSql (basePrompt "S" "N")) = "" ∧
    generate_sql_from_nl gmSql explainFail "S" "N" = ("", successReasoning) :=
  ⟨by decide,
   empty_validated_c10.2.2.2.2 gmSql explainFail "S" "N" (by decide)⟩
